import Mathlib

/-!
Shallow embedding of the catalog ingestion and search engine of the
dyad-image-browsersource repository (src/server/elestrals/cards.ts,
src/src/pages/Elestrals.tsx, src/api/elestrals/cards.ts and the HTTP
handlers that call them), together with theorems settling the claims
about it.

Strings are modelled as `List Char`.  JSON values produced by
`JSON.parse` are modelled by the inductive `Json` below; since
`JSON.parse` never creates sharing or cycles, the visited-set guard of
the deep traversal never fires on such input and the traversal is plain
structural recursion.
-/

namespace DyadCards

/-- Strings of the TypeScript source, modelled as lists of characters. -/
abbrev Str := List Char

/-- Source `interface ElestralsCard` of cards.ts: `id`, `name`, `imageUrl`
required, `setNumber` and `info` optional. -/
structure ElestralsCard where
  id : Str
  name : Str
  imageUrl : Str
  setNumber : Option Str
  info : Option Str
deriving DecidableEq, Repr

/-- Source `type CacheKey = "base" | "all"` of cards.ts. -/
inductive CacheKey where
  | base
  | all
deriving DecidableEq, Repr

/-- Parsed JSON values (output of `JSON.parse`): a tree with objects as
ordered field lists, mirroring JavaScript property insertion order. -/
inductive Json where
  | null
  | bool (b : Bool)
  | num (n : Int)
  | str (s : Str)
  | arr (items : List Json)
  | obj (fields : List (Str × Json))
deriving Repr

/- ### Deduplicator (`dedupeCards`, cards.ts lines 146-154) -/

/-- The identity key built inside `dedupeCards`:
`` `${card.name}-${card.setNumber ?? ""}-${card.imageUrl}` ``. -/
def dedupeKey (card : ElestralsCard) : Str :=
  card.name ++ ('-' :: card.setNumber.getD []) ++ ('-' :: card.imageUrl)

/-- The stateful `cards.filter` of `dedupeCards`, with the `seen` set
made explicit: a card whose key is already in `seen` is dropped,
otherwise it is kept and its key added. -/
def dedupeGo : List ElestralsCard → List Str → List ElestralsCard
  | [], _ => []
  | card :: rest, seen =>
    if dedupeKey card ∈ seen then dedupeGo rest seen
    else card :: dedupeGo rest (dedupeKey card :: seen)

/-- Source `dedupeCards` of cards.ts: filter keeping the first occurrence of
each identity key. -/
def dedupeCards (cards : List ElestralsCard) : List ElestralsCard :=
  dedupeGo cards []


/- ### Payload extraction (cards.ts lines 38-131) -/

/-- JavaScript string whitespace for `trim` (the characters relevant to
this codebase). -/
def isJsWhitespace (c : Char) : Bool :=
  c = ' ' || c = '\t' || c = '\n' || c = '\r'

/-- Source `value.trim()`: strip leading and trailing whitespace. -/
def jsTrim (s : Str) : Str :=
  (s.dropWhile isJsWhitespace).reverse.dropWhile isJsWhitespace |>.reverse

/-- Property lookup `record[key]` on a parsed JSON object: the field
with the given name (keys are unique after `JSON.parse`; first match). -/
def getField (fields : List (Str × Json)) (key : Str) : Option Json :=
  (fields.find? (fun f => f.1 == key)).map (·.2)

mutual

/-- JavaScript `String(value)` on a parsed JSON value, as invoked inside
`normalizeValue`.  Arrays stringify by joining their elements with
commas, null elements joining as empty; objects stringify as
"[object Object]". -/
def jsToString : Json → Str
  | .null => ("null").data
  | .bool true => ("true").data
  | .bool false => ("false").data
  | .num n => (toString n).data
  | .str s => s
  | .arr items => List.intercalate ([',']) (jsToStringItems items)
  | .obj _ => ("[object Object]").data

/-- Element-wise stringification inside an array (`Array.prototype.join`
maps null and undefined elements to the empty string). -/
def jsToStringItems : List Json → List Str
  | [] => []
  | .null :: rest => ([] : Str) :: jsToStringItems rest
  | v :: rest => jsToString v :: jsToStringItems rest

end

/-- Source `normalizeValue` of cards.ts lines 38-39: null and undefined map to
undefined; every other value is stringified and trimmed.  A value whose
trimmed form is empty still maps to `some []`, not to undefined. -/
def normalizeValue : Option Json → Option Str
  | none => none
  | some .null => none
  | some v => some (jsTrim (jsToString v))

/-- A `??` alias chain of `buildCard`: stops at the first alias whose
`normalizeValue` is defined — `??` only skips null/undefined, so an
alias normalizing to the empty string stops the chain with `some []`. -/
def firstAliasValue (fields : List (Str × Json)) : List Str → Option Str
  | [] => none
  | key :: rest =>
    match normalizeValue (getField fields key) with
    | some v => some v
    | none => firstAliasValue fields rest

/-- Alias priority list for `name` in `buildCard`. -/
def nameAliases : List Str := [("name").data, ("cardName").data, ("title").data]

/-- Alias priority list for `imageUrl` in `buildCard`. -/
def imageUrlAliases : List Str :=
  [("imageUrl").data, ("image_url").data, ("image").data, ("img").data,
   ("cardImage").data]

/-- Alias priority list for `setNumber` in `buildCard`. -/
def setNumberAliases : List Str :=
  [("setNumber").data, ("set_number").data, ("cardNumber").data,
   ("number").data, ("set").data]

/-- Alias priority list for `info` in `buildCard`. -/
def infoAliases : List Str :=
  [("info").data, ("text").data, ("description").data, ("effect").data]

/-- Alias priority list for `id` in `buildCard`. -/
def idAliases : List Str := [("id").data, ("slug").data, ("uuid").data]

/-- Source `s || undefined` applied to a resolved optional string field. -/
def emptyToNone : Option Str → Option Str
  | some s => if s = [] then none else some s
  | none => none

/-- Source `buildCard` of cards.ts lines 41-78: resolve name and imageUrl via
their alias chains; `if (!name || !imageUrl) return null` rejects an
undefined or empty resolution; then resolve setNumber, info and id, the
id falling back to `` `${name}-${setNumber ?? fallbackId}` ``; empty
setNumber or info strings become undefined through `|| undefined`. -/
def buildCard (raw : List (Str × Json)) (fallbackId : Str) :
    Option ElestralsCard :=
  match firstAliasValue raw nameAliases, firstAliasValue raw imageUrlAliases with
  | some name, some imageUrl =>
    if name = [] ∨ imageUrl = [] then none
    else
      let setNumber := firstAliasValue raw setNumberAliases
      let info := firstAliasValue raw infoAliases
      let id :=
        match firstAliasValue raw idAliases with
        | some i => i
        | none => name ++ ('-' :: setNumber.getD fallbackId)
      some ⟨id, name, imageUrl, emptyToNone setNumber, emptyToNone info⟩
  | _, _ => none

/-- Decimal rendering of an array index, the `` `${index}` `` fallback
ids of the collectors. -/
def natToChars (n : Nat) : Str := (toString n).data

/-- The `item && typeof item === "object"` guard of
`collectCardsFromArray`: null and primitives are skipped; objects expose
their fields; arrays count as objects but expose none of the alias
properties. -/
def asRecord : Json → Option (List (Str × Json))
  | .obj fields => some fields
  | .arr _ => some []
  | _ => none

/-- Source `collectCardsFromArray` of cards.ts lines 80-83: build a card from
every object-typed element, using the element index as fallback id, and
keep the successes in order. -/
def collectCardsFromArray (items : List Json) : List ElestralsCard :=
  items.enum.filterMap fun p =>
    match asRecord p.2 with
    | some fields => buildCard fields (natToChars p.1)
    | none => none

/-- The known collection keys probed by `collectCardsFromObject`. -/
def knownKeys : List Str :=
  [("cards").data, ("data").data, ("items").data, ("results").data]

/-- The `possibleArrays` accumulation of `collectCardsFromObject`: the
concatenation, in key order, of every known-key field holding an array.
Non-objects (including arrays, which have none of the known keys as own
named properties) contribute nothing. -/
def knownArrays (payload : Json) : List Json :=
  match payload with
  | .obj fields =>
    knownKeys.foldl
      (fun acc key =>
        match getField fields key with
        | some (.arr xs) => acc ++ xs
        | _ => acc)
      []
  | _ => []

/-- Source `collectCardsFromObject` of cards.ts lines 85-100: when at least one
known key holds an array, build cards from the concatenation; otherwise
yield nothing. -/
def collectCardsFromObject (payload : Json) : List ElestralsCard :=
  let possibleArrays := knownArrays payload
  if possibleArrays.isEmpty then []
  else collectCardsFromArray possibleArrays

mutual

/-- The recursive `visit` of `deepCollectCards`, with the `results`
accumulator explicit (its length is the fallback id of the next card).
The visited set of the source is keyed by object identity; on the output
of `JSON.parse` — a tree with no sharing and no cycles — it never
rejects a node, so the traversal is plain structural recursion.
Primitives and null return immediately; arrays recurse into their items;
objects first try to build a card from themselves, then recurse into
their field values in insertion order. -/
def deepVisit (value : Json) (acc : List ElestralsCard) :
    List ElestralsCard :=
  match value with
  | .arr items => deepVisitItems items acc
  | .obj fields =>
    let acc1 :=
      match buildCard fields (natToChars acc.length) with
      | some card => acc ++ [card]
      | none => acc
    deepVisitFields fields acc1
  | _ => acc

/-- Left-to-right visit of the items of an array node. -/
def deepVisitItems (items : List Json) (acc : List ElestralsCard) :
    List ElestralsCard :=
  match items with
  | [] => acc
  | item :: rest => deepVisitItems rest (deepVisit item acc)

/-- Visit of `Object.values(record)` in insertion order. -/
def deepVisitFields (fields : List (Str × Json)) (acc : List ElestralsCard) :
    List ElestralsCard :=
  match fields with
  | [] => acc
  | f :: rest => deepVisitFields rest (deepVisit f.2 acc)

end

/-- Source `deepCollectCards` of cards.ts lines 102-131. -/
def deepCollectCards (payload : Json) : List ElestralsCard :=
  deepVisit payload []

/-- The extraction phases of `fetchCardsFromJson` (cards.ts lines
138-143), after the payload has been parsed: known-key cards win when
non-empty, otherwise deep traversal, otherwise the empty list. -/
def extractCardsFromPayload (payload : Json) : List ElestralsCard :=
  let fromKnown := collectCardsFromObject payload
  if fromKnown ≠ [] then fromKnown
  else
    let fromDeep := deepCollectCards payload
    if fromDeep ≠ [] then fromDeep
    else []

/- ### Fetch orchestration (cards.ts lines 133-144 and 215-228) -/

/-- Outcome of the `fetch` at one source: a transport failure or non-ok
status (both of which throw, with the thrown message abstracted as
`reason`), or a successfully parsed JSON payload. -/
inductive FetchOutcome where
  | failure (reason : Str)
  | success (payload : Json)

/-- Source `fetchCardsFromJson` of cards.ts lines 133-144: throw on transport
failure, otherwise extract cards (possibly zero) from the payload. -/
def fetchCardsFromJson : FetchOutcome → Except Str (List ElestralsCard)
  | .failure reason => .error reason
  | .success payload => .ok (extractCardsFromPayload payload)

/-- The record returned by `fetchCardsFromSources`. -/
structure FetchResult where
  cards : List ElestralsCard
  source : Option Str
  errors : List Str
deriving Repr, DecidableEq

/-- The source loop of `fetchCardsFromSources` (cards.ts lines 215-228)
with the accumulated error list explicit.  Each attempt is the source
URL paired with its fetch outcome.  A throwing attempt records
`url ++ ": " ++ reason` and continues; an attempt that succeeds at
transport level but extracts zero cards continues WITHOUT recording
anything; the first non-empty extraction wins, deduplicated. -/
def fetchSourcesGo : List (Str × FetchOutcome) → List Str → FetchResult
  | [], errors => ⟨[], none, errors⟩
  | (url, outcome) :: rest, errors =>
    match fetchCardsFromJson outcome with
    | .error reason =>
      fetchSourcesGo rest (errors ++ [url ++ (": ").data ++ reason])
    | .ok cards =>
      if cards ≠ [] then ⟨dedupeCards cards, some url, errors⟩
      else fetchSourcesGo rest errors

/-- Source `fetchCardsFromSources`, starting from an empty error list. -/
def fetchCardsFromSources (attempts : List (Str × FetchOutcome)) :
    FetchResult :=
  fetchSourcesGo attempts []

/- ### Snapshot store (cards.ts lines 156-213) -/

/-- An in-memory dataset entry: `updatedAt` timestamp and card list. -/
structure SnapshotDataset where
  updatedAt : Int
  cards : List ElestralsCard
deriving Repr, DecidableEq

/-- The in-memory `SnapshotPayload` returned by `readSnapshot`. -/
structure SnapshotPayload where
  updatedAt : Int
  base : SnapshotDataset
  all : SnapshotDataset
deriving Repr, DecidableEq

/-- Source `payload.datasets[cacheKey]` selection. -/
def SnapshotPayload.dataset (p : SnapshotPayload) : CacheKey → SnapshotDataset
  | .base => p.base
  | .all => p.all

/-- A dataset entry as it sits in the snapshot file: `updatedAt` may be
absent (read through `?? 0`) and `cards` may be absent or not an array
(read through `Array.isArray ? : []`). -/
structure StoredDataset where
  updatedAt : Option Int
  cards : Option (List ElestralsCard)
deriving Repr, DecidableEq

/-- The persisted snapshot file as `readSnapshot` discriminates it:
`absent` is a missing file or unparsable contents (the catch branch);
`legacy` is a payload whose top-level `cards` field is an array;
`modern` is the `datasets` shape that `writeSnapshot` writes, every part
optional.  `JSON.stringify` followed by `JSON.parse` round-trips these
records exactly, so cards are stored as values. -/
inductive StoredSnapshot where
  | absent
  | legacy (updatedAt : Option Int) (cards : List ElestralsCard)
  | modern (updatedAt : Option Int)
      (base : Option StoredDataset) (all : Option StoredDataset)
deriving Repr, DecidableEq

/-- Source `emptySnapshot` of cards.ts lines 156-162. -/
def emptySnapshot : SnapshotPayload := ⟨0, ⟨0, []⟩, ⟨0, []⟩⟩

/-- Reading one `datasets` entry:
`payload.datasets?.k?.updatedAt ?? 0` and
`Array.isArray(payload.datasets?.k?.cards) ? ... : []`. -/
def decodeDataset : Option StoredDataset → SnapshotDataset
  | none => ⟨0, []⟩
  | some d => ⟨d.updatedAt.getD 0, d.cards.getD []⟩

/-- Source `readSnapshot` of cards.ts lines 164-196: an unreadable file becomes
the empty snapshot; a legacy payload with a top-level `cards` array
populates BOTH variants with that one list and timestamp; otherwise each
`datasets` entry is read with its defaults. -/
def readSnapshot : StoredSnapshot → SnapshotPayload
  | .absent => emptySnapshot
  | .legacy u cards =>
    let updatedAt := u.getD 0
    ⟨updatedAt, ⟨updatedAt, cards⟩, ⟨updatedAt, cards⟩⟩
  | .modern u base all => ⟨u.getD 0, decodeDataset base, decodeDataset all⟩

/-- Source `writeSnapshot` of cards.ts lines 198-213: read the existing
snapshot, spread its datasets, overwrite the given variant with the new
cards stamped `Date.now()` (the parameter `now`), persist the result,
and return the written dataset entry. -/
def writeSnapshot (stored : StoredSnapshot) (now : Int) (cacheKey : CacheKey)
    (cards : List ElestralsCard) : StoredSnapshot × SnapshotDataset :=
  let existing := readSnapshot stored
  let newDataset : CacheKey → SnapshotDataset := fun k =>
    if k = cacheKey then ⟨now, cards⟩ else existing.dataset k
  let storedOut : StoredSnapshot :=
    .modern (some now)
      (some ⟨some (newDataset .base).updatedAt, some (newDataset .base).cards⟩)
      (some ⟨some (newDataset .all).updatedAt, some (newDataset .all).cards⟩)
  (storedOut, newDataset cacheKey)

/- ### Refresh orchestrator (cards.ts lines 230-239) and the search
handler's dataset selection (the handler importing cards.js, lines
36-47) -/

/-- Source `refreshSnapshot` of cards.ts lines 230-239, returning the result
record together with the snapshot file afterwards.  With remote fetch
disallowed it answers at once — empty cards, the single explanatory
error, no source walked, nothing written.  Otherwise it walks the
sources and persists the yield only when it is non-empty. -/
def refreshSnapshot (stored : StoredSnapshot) (now : Int)
    (cacheKey : CacheKey) (allowRemote : Bool)
    (attempts : List (Str × FetchOutcome)) :
    FetchResult × StoredSnapshot :=
  if !allowRemote then
    (⟨[], none, [("Remote fetch disabled.").data]⟩, stored)
  else
    let r := fetchCardsFromSources attempts
    if r.cards ≠ [] then (r, (writeSnapshot stored now cacheKey r.cards).1)
    else (r, stored)

/-- Lines 36-47 of the search handler: after an optional refresh, the
dataset served is the refreshed cards stamped with the current time when
the refresh yielded any, and the snapshot's dataset for the variant
otherwise. -/
def handlerDataset (snapshot : SnapshotPayload) (cacheKey : CacheKey)
    (refreshCards : List ElestralsCard) (nowMs : Int) : SnapshotDataset :=
  if refreshCards ≠ [] then ⟨nowMs, refreshCards⟩
  else snapshot.dataset cacheKey

/- ### The legacy in-memory cache of api/elestrals/cards.ts -/

/-- One entry of the module-level `cache` record (lines 16-20). -/
structure LegacyCacheEntry where
  timestamp : Int
  cards : List ElestralsCard
deriving Repr, DecidableEq

/-- The module-level `cache` record.  Besides the declared `base` and
`all` entries it carries the two properties the handler's success path
actually assigns: `cache.cards` and `cache.timestamp`, added dynamically
to the record object itself. -/
structure LegacyCache where
  base : LegacyCacheEntry
  all : LegacyCacheEntry
  extraTimestamp : Option Int
  extraCards : Option (List ElestralsCard)
deriving Repr, DecidableEq

/-- The initializer of `cache`: both entries at timestamp 0 with no
cards, no dynamic properties yet. -/
def initialLegacyCache : LegacyCache := ⟨⟨0, []⟩, ⟨0, []⟩, none, none⟩

/-- Source `cache[cacheKey]`. -/
def LegacyCache.entry (c : LegacyCache) : CacheKey → LegacyCacheEntry
  | .base => c.base
  | .all => c.all

/-- Source `CACHE_TTL_MS = 1000 * 60 * 60`. -/
def CACHE_TTL_MS : Int := 1000 * 60 * 60

/-- The cache-hit guard of the legacy handler (line 227):
`cache[cacheKey].cards.length && now - cache[cacheKey].timestamp <
CACHE_TTL_MS`. -/
def legacyCacheHit (c : LegacyCache) (key : CacheKey) (now : Int) : Bool :=
  !(c.entry key).cards.isEmpty && decide (now - (c.entry key).timestamp < CACHE_TTL_MS)

/-- The cache effect of one GET request to the legacy handler (lines
226-254): on a cache hit nothing changes; otherwise, when some source
yields a non-empty card list (`fetched = some cards`), the handler runs
`cache.cards = dedupeCards(cards); cache.timestamp = now;` — assigning
properties of the `cache` record object itself, NOT of
`cache[cacheKey]` — and when every source fails or is empty it falls
through to the snapshot path, touching the cache not at all. -/
def legacyHandlerStep (c : LegacyCache) (key : CacheKey) (now : Int)
    (fetched : Option (List ElestralsCard)) : LegacyCache :=
  if legacyCacheHit c key now then c
  else
    match fetched with
    | some cards =>
      { c with extraCards := some (dedupeCards cards), extraTimestamp := some now }
    | none => c

/-- The cache state after a sequence of GET requests, each given as
variant, current time and fetch yield. -/
def runLegacyHandler
    (reqs : List (CacheKey × Int × Option (List ElestralsCard))) :
    LegacyCache :=
  reqs.foldl (fun c r => legacyHandlerStep c r.1 r.2.1 r.2.2)
    initialLegacyCache

/- ### Search ranker (Elestrals.tsx lines 29-43 and 210-239) -/

/-- Score constants of Elestrals.tsx. -/
def SCORE_EXACT_MATCH : Int := 1000

/-- Prefix-match base score. -/
def SCORE_PREFIX_MATCH : Int := 800

/-- Substring-match base score. -/
def SCORE_INCLUDES_MATCH : Int := 500

/-- Fuzzy-match base score. -/
def SCORE_FUZZY_MATCH : Int := 200

/-- Source `const normalize = (value) => value.trim().toLowerCase();` of
Elestrals.tsx (and of the search handler). -/
def jsNormalize (s : Str) : Str :=
  (jsTrim s).map Char.toLower

/-- The `while` loop of `getFuzzyScore`: scan the name left to right,
consuming query characters in order on match and counting a gap on
mismatch; stops when the name or the query is exhausted.  Returns the
gap count when the whole query was consumed, `none` otherwise. -/
def fuzzyLoop : Str → Str → Nat → Option Nat
  | _, [], gaps => some gaps
  | [], _ :: _, _ => none
  | c :: name, d :: query, gaps =>
    if c = d then fuzzyLoop name query gaps
    else fuzzyLoop name (d :: query) (gaps + 1)

/-- Source `Math.round(ratio * 100)` for `ratio = query.length / name.length`,
a nonnegative value: round-half-up, computed exactly on naturals. -/
def roundRatio100 (q n : Nat) : Nat :=
  (200 * q + n) / (2 * n)

/-- Source `getFuzzyScore` of Elestrals.tsx: 0 when the query is not a
subsequence of the name under the greedy scan, otherwise
`SCORE_FUZZY_MATCH + Math.round(ratio * 100) - gaps`. -/
def getFuzzyScore (name query : Str) : Int :=
  match fuzzyLoop name query 0 with
  | none => 0
  | some gaps =>
    SCORE_FUZZY_MATCH + (roundRatio100 query.length name.length : Int) - gaps

/-- Source `name.indexOf(query)`: index of the first occurrence of `query` as a
contiguous substring, `none` standing for -1. -/
def firstIndexOf (name query : Str) : Option Nat :=
  if query.isPrefixOf name then some 0
  else
    match name with
    | [] => none
    | _ :: rest => (firstIndexOf rest query).map (· + 1)

/-- Source `scoreCard` of Elestrals.tsx: exact match 1000; prefix match
`800 + max(0, 50 - (name.length - query.length))`; substring match
`500 - index`; otherwise the fuzzy score.  The query argument is already
normalized by the caller (`results` normalizes it before mapping). -/
def scoreCard (cardName query : Str) : Int :=
  if query = [] then 0
  else
    let name := jsNormalize cardName
    if name = query then SCORE_EXACT_MATCH
    else if query.isPrefixOf name then
      SCORE_PREFIX_MATCH + max 0 (50 - ((name.length : Int) - query.length))
    else
      match firstIndexOf name query with
      | some index => SCORE_INCLUDES_MATCH - index
      | none => getFuzzyScore name query

/- Lemmas about `dedupeGo` used for the idempotence claim. -/

theorem dedupeGo_sublist (cards : List ElestralsCard) (seen : List Str) :
    (dedupeGo cards seen).Sublist cards := by
  induction cards generalizing seen with
  | nil => simp [dedupeGo]
  | cons card rest ih =>
    by_cases h : dedupeKey card ∈ seen
    · exact List.Sublist.trans (by simpa [dedupeGo, h] using ih seen)
        (List.sublist_cons_self card rest)
    · simpa [dedupeGo, h] using (ih (dedupeKey card :: seen)).cons₂ card

theorem dedupeGo_key_not_seen (cards : List ElestralsCard) (seen : List Str) :
    ∀ c ∈ dedupeGo cards seen, dedupeKey c ∉ seen := by
  induction cards generalizing seen with
  | nil => simp [dedupeGo]
  | cons card rest ih =>
    intro c hc
    by_cases h : dedupeKey card ∈ seen
    · exact ih seen c (by simpa [dedupeGo, h] using hc)
    · rw [dedupeGo, if_neg h] at hc
      rcases List.mem_cons.mp hc with hc | hc
      · simpa [hc] using h
      · intro hmem
        exact ih (dedupeKey card :: seen) c hc (List.mem_cons_of_mem _ hmem)

theorem dedupeGo_pairwise (cards : List ElestralsCard) (seen : List Str) :
    (dedupeGo cards seen).Pairwise (fun a b => dedupeKey a ≠ dedupeKey b) := by
  induction cards generalizing seen with
  | nil => simp [dedupeGo]
  | cons card rest ih =>
    by_cases h : dedupeKey card ∈ seen
    · simpa [dedupeGo, h] using ih seen
    · rw [dedupeGo, if_neg h]
      refine List.Pairwise.cons ?_ (ih (dedupeKey card :: seen))
      intro b hb hkey
      exact dedupeGo_key_not_seen rest (dedupeKey card :: seen) b hb
        (by simp [hkey])

theorem dedupeGo_fixed (cards : List ElestralsCard) (seen : List Str)
    (hpair : cards.Pairwise fun a b => dedupeKey a ≠ dedupeKey b)
    (hseen : ∀ c ∈ cards, dedupeKey c ∉ seen) :
    dedupeGo cards seen = cards := by
  induction cards generalizing seen with
  | nil => rfl
  | cons card rest ih =>
    rw [dedupeGo, if_neg (hseen card (List.mem_cons_self card rest))]
    refine congrArg (card :: ·) (ih _ (List.Pairwise.of_cons hpair) ?_)
    intro c hc
    simp only [List.mem_cons, not_or]
    exact ⟨fun he => (List.pairwise_cons.mp hpair).1 c hc he.symm,
      hseen c (List.mem_cons_of_mem _ hc)⟩

/- Lemmas about the fuzzy scan, used to bound each scoring tier. -/

theorem fuzzyLoop_le (n : Str) : ∀ (q : Str) (g g' : Nat),
    fuzzyLoop n q g = some g' → g ≤ g' := by
  induction n with
  | nil =>
    intro q g g' h
    cases q with
    | nil => simp [fuzzyLoop] at h; omega
    | cons d q' => simp [fuzzyLoop] at h
  | cons c n' ih =>
    intro q g g' h
    cases q with
    | nil => simp [fuzzyLoop] at h; omega
    | cons d q' =>
      rw [fuzzyLoop] at h
      by_cases hcd : c = d
      · exact ih q' g g' (by simpa [hcd] using h)
      · exact Nat.le_of_succ_le (ih (d :: q') (g + 1) g' (by simpa [hcd] using h))

theorem fuzzyLoop_prefix_of_eq (n : Str) : ∀ (q : Str) (g : Nat),
    fuzzyLoop n q g = some g → q <+: n := by
  induction n with
  | nil =>
    intro q g h
    cases q with
    | nil => exact List.nil_prefix
    | cons d q' => simp [fuzzyLoop] at h
  | cons c n' ih =>
    intro q g h
    cases q with
    | nil => exact List.nil_prefix
    | cons d q' =>
      rw [fuzzyLoop] at h
      by_cases hcd : c = d
      · rw [if_pos hcd] at h
        exact List.cons_prefix_cons.mpr ⟨hcd.symm, ih q' g h⟩
      · rw [if_neg hcd] at h
        have := fuzzyLoop_le n' (d :: q') (g + 1) g h
        omega

theorem fuzzyLoop_length_le (n : Str) : ∀ (q : Str) (g g' : Nat),
    fuzzyLoop n q g = some g' → q.length ≤ n.length := by
  induction n with
  | nil =>
    intro q g g' h
    cases q with
    | nil => simp
    | cons d q' => simp [fuzzyLoop] at h
  | cons c n' ih =>
    intro q g g' h
    cases q with
    | nil => simp
    | cons d q' =>
      rw [fuzzyLoop] at h
      by_cases hcd : c = d
      · simpa using Nat.succ_le_succ (ih q' g g' (by simpa [hcd] using h))
      · exact Nat.le_trans (Nat.le_succ _)
          (Nat.succ_le_succ (ih (d :: q') (g + 1) g' (by simpa [hcd] using h)))

theorem roundRatio100_le (q n : Nat) (h : q ≤ n) : roundRatio100 q n ≤ 100 := by
  unfold roundRatio100
  rcases Nat.eq_zero_or_pos n with hn | hn
  · simp [hn]
  · have hlt : 200 * q + n < 101 * (2 * n) := by omega
    have := (Nat.div_lt_iff_lt_mul (by omega : 0 < 2 * n)).mpr hlt
    omega

/-- In the branch of `scoreCard` that reaches `getFuzzyScore`, the query
is not a prefix of the name, so the greedy scan pays at least one gap
and the fuzzy score is at most 299. -/
theorem getFuzzyScore_le (n q : Str) (hpre : ¬ q <+: n) :
    getFuzzyScore n q ≤ 299 := by
  unfold getFuzzyScore
  cases hloop : fuzzyLoop n q 0 with
  | none => simp
  | some gaps =>
    simp only
    have hgaps : 1 ≤ gaps := by
      rcases Nat.eq_zero_or_pos gaps with h0 | h1
      · exact absurd (fuzzyLoop_prefix_of_eq n q 0 (h0 ▸ hloop)) hpre
      · exact h1
    have hlen := fuzzyLoop_length_le n q 0 gaps hloop
    have hround := roundRatio100_le q.length n.length hlen
    unfold SCORE_FUZZY_MATCH
    omega

theorem scoreCard_of_exact (q a : Str) (hq : q ≠ [])
    (h : jsNormalize a = q) : scoreCard a q = 1000 := by
  unfold scoreCard SCORE_EXACT_MATCH
  simp [hq, h]

theorem scoreCard_le_849 (q b : Str) (hne : jsNormalize b ≠ q) :
    scoreCard b q ≤ 849 := by
  unfold scoreCard
  by_cases hq : q = []
  · simp [hq]
  rw [if_neg hq]
  simp only [if_neg hne]
  by_cases hpre : q.isPrefixOf (jsNormalize b)
  · rw [if_pos hpre]
    have hp : q <+: jsNormalize b := List.isPrefixOf_iff_prefix.mp hpre
    have hlt : q.length < (jsNormalize b).length := by
      rcases Nat.lt_or_ge q.length (jsNormalize b).length with h | h
      · exact h
      · exact absurd (hp.eq_of_length (Nat.le_antisymm hp.length_le h)).symm hne
    have hmax : max 0 (50 - (((jsNormalize b).length : Int) - q.length)) ≤ 49 :=
      max_le (by omega) (by omega)
    unfold SCORE_PREFIX_MATCH
    omega
  · rw [if_neg hpre]
    cases hidx : firstIndexOf (jsNormalize b) q with
    | some i =>
      simp only [hidx]
      unfold SCORE_INCLUDES_MATCH
      omega
    | none =>
      simp only [hidx]
      have := getFuzzyScore_le (jsNormalize b) q
        (fun hc => hpre (List.isPrefixOf_iff_prefix.mpr hc))
      omega

theorem scoreCard_ge_800 (q a : Str) (hq : q ≠ [])
    (hne : jsNormalize a ≠ q) (hpre : q.isPrefixOf (jsNormalize a) = true) :
    800 ≤ scoreCard a q := by
  unfold scoreCard SCORE_PREFIX_MATCH
  rw [if_neg hq]
  simp only [if_neg hne, hpre, if_pos]
  have := le_max_left (0 : Int) (50 - (((jsNormalize a).length : Int) - q.length))
  omega

theorem scoreCard_le_500 (q b : Str)
    (hne : jsNormalize b ≠ q) (hpre : q.isPrefixOf (jsNormalize b) = false) :
    scoreCard b q ≤ 500 := by
  unfold scoreCard
  by_cases hq : q = []
  · simp [hq]
  rw [if_neg hq]
  simp only [if_neg hne, hpre, Bool.false_eq_true, if_false]
  cases hidx : firstIndexOf (jsNormalize b) q with
  | some i =>
    simp only [hidx]
    unfold SCORE_INCLUDES_MATCH
    omega
  | none =>
    simp only [hidx]
    have := getFuzzyScore_le (jsNormalize b) q
      (fun hc => by simp [List.isPrefixOf_iff_prefix.mpr hc] at hpre)
    omega

theorem scoreCard_of_substring (q a : Str) (i : Nat) (hq : q ≠ [])
    (hne : jsNormalize a ≠ q) (hpre : q.isPrefixOf (jsNormalize a) = false)
    (hidx : firstIndexOf (jsNormalize a) q = some i) :
    scoreCard a q = 500 - (i : Int) := by
  unfold scoreCard SCORE_INCLUDES_MATCH
  rw [if_neg hq]
  simp [if_neg hne, hpre, hidx]

theorem scoreCard_fuzzy_le_299 (q b : Str)
    (hne : jsNormalize b ≠ q) (hpre : q.isPrefixOf (jsNormalize b) = false)
    (hidx : firstIndexOf (jsNormalize b) q = none) :
    scoreCard b q ≤ 299 := by
  unfold scoreCard
  by_cases hq : q = []
  · simp [hq]
  rw [if_neg hq]
  simp only [if_neg hne, hpre, Bool.false_eq_true, if_false, hidx]
  exact getFuzzyScore_le (jsNormalize b) q
    (fun hc => by simp [List.isPrefixOf_iff_prefix.mpr hc] at hpre)

/-- Claim C5, amended.  For a fixed non-empty normalized query: an
exact-matched card outranks any non-exact card, and a prefix-matched
card outranks any card that is neither exact nor prefix matched — both
unconditionally.  A substring-matched card outranks any card matched
only as a fuzzy subsequence provided its match index is at most 200;
beyond that the substring score (500 - index) can fall below a fuzzy
score (which can reach 299), so the substring tier does not dominate the
fuzzy tier regardless of name lengths. -/
theorem scoreCard_tier_order (q a b : Str) (hq : q ≠ []) :
    (jsNormalize a = q → jsNormalize b ≠ q →
      scoreCard b q < scoreCard a q) ∧
    (jsNormalize a ≠ q → q.isPrefixOf (jsNormalize a) = true →
      jsNormalize b ≠ q → q.isPrefixOf (jsNormalize b) = false →
      scoreCard b q < scoreCard a q) ∧
    (∀ i : Nat, i ≤ 200 →
      jsNormalize a ≠ q → q.isPrefixOf (jsNormalize a) = false →
      firstIndexOf (jsNormalize a) q = some i →
      jsNormalize b ≠ q → q.isPrefixOf (jsNormalize b) = false →
      firstIndexOf (jsNormalize b) q = none →
      scoreCard b q < scoreCard a q) := by
  refine ⟨?_, ?_, ?_⟩
  · intro ha hb
    have h1 := scoreCard_of_exact q a hq ha
    have h2 := scoreCard_le_849 q b hb
    omega
  · intro hane hapre hbne hbpre
    have h1 := scoreCard_ge_800 q a hq hane hapre
    have h2 := scoreCard_le_500 q b hbne hbpre
    omega
  · intro i hi hane hapre haidx hbne hbpre hbidx
    have h1 := scoreCard_of_substring q a i hq hane hapre haidx
    have h2 := scoreCard_fuzzy_le_299 q b hbne hbpre hbidx
    omega

/-- Witness for claim C5: the amended tier order at concrete inputs —
exact "ab" beats prefix "abc", prefix "abc" beats substring "xab", and
substring "xab" (index 1) beats fuzzy-only "axb", all for query "ab". -/
theorem scoreCard_tier_order_witness :
    scoreCard ['a', 'b', 'c'] ['a', 'b'] < scoreCard ['a', 'b'] ['a', 'b'] ∧
    scoreCard ['x', 'a', 'b'] ['a', 'b'] < scoreCard ['a', 'b', 'c'] ['a', 'b'] ∧
    scoreCard ['a', 'x', 'b'] ['a', 'b'] < scoreCard ['x', 'a', 'b'] ['a', 'b'] :=
  ⟨(scoreCard_tier_order ['a', 'b'] ['a', 'b'] ['a', 'b', 'c']
      (by decide)).1 (by decide) (by decide),
   (scoreCard_tier_order ['a', 'b'] ['a', 'b', 'c'] ['x', 'a', 'b']
      (by decide)).2.1 (by decide) (by decide) (by decide) (by decide),
   (scoreCard_tier_order ['a', 'b'] ['x', 'a', 'b'] ['a', 'x', 'b']
      (by decide)).2.2 1 (by decide) (by decide) (by decide) (by decide)
      (by decide) (by decide) (by decide)⟩

set_option maxRecDepth 4000 in
/-- Counterexample to claim C5 as stated: for query "ab", the card named
with 240 copies of "x" followed by "ab" is substring-matched (index 240,
score 260), while "axb" is matched only as a fuzzy subsequence (score
266) — the fuzzy-tier card outranks the substring-tier card, so the
substring tier does not always outrank the fuzzy tier. -/
theorem scoreCard_tier_order_cex :
    firstIndexOf (jsNormalize (List.replicate 240 'x' ++ ['a', 'b']))
      ['a', 'b'] = some 240 ∧
    firstIndexOf (jsNormalize ['a', 'x', 'b']) ['a', 'b'] = none ∧
    (fuzzyLoop (jsNormalize ['a', 'x', 'b']) ['a', 'b'] 0).isSome = true ∧
    scoreCard (List.replicate 240 'x' ++ ['a', 'b']) ['a', 'b'] <
      scoreCard ['a', 'x', 'b'] ['a', 'b'] := by
  decide


/- ### Claim theorems -/

/-- Claim C7: `dedupeCards` is idempotent, and surviving elements appear
in the output in their input order (the output is a sublist of the
input, so survivors keep the relative order of their first occurrences);
identity is the key `name ++ "-" ++ (setNumber or "") ++ "-" ++
imageUrl` computed by `dedupeKey`. -/
theorem dedupeCards_idempotent_and_ordered (x : List ElestralsCard) :
    dedupeCards (dedupeCards x) = dedupeCards x ∧
    (dedupeCards x).Sublist x := by
  constructor
  · exact dedupeGo_fixed _ [] (dedupeGo_pairwise x []) (by simp)
  · exact dedupeGo_sublist x []

/-- Claim C10: on a legacy-format snapshot file holding a top-level
`cards` array, `readSnapshot` gives BOTH dataset variants that same card
list and that same `updatedAt` timestamp — the variants are not
independent in this case. -/
theorem readSnapshot_legacy_shares_both_variants
    (u : Option Int) (cards : List ElestralsCard) :
    (readSnapshot (.legacy u cards)).base =
      (readSnapshot (.legacy u cards)).all ∧
    (readSnapshot (.legacy u cards)).base.cards = cards ∧
    (readSnapshot (.legacy u cards)).base.updatedAt = u.getD 0 ∧
    (readSnapshot (.legacy u cards)).updatedAt = u.getD 0 := by
  simp [readSnapshot]

/-- Claim C8: `writeSnapshot(variant, cards)` followed by
`readSnapshot()` yields, for that variant, exactly the written card list
in order with all field values, stamped with the write-time `now`;
under a monotonic clock (`tInvoke ≤ now`, `Date.now()` being sampled
inside the call) the read `updatedAt` is at least the invocation time. -/
theorem writeSnapshot_readSnapshot_roundtrip
    (stored : StoredSnapshot) (tInvoke now : Int) (key : CacheKey)
    (cards : List ElestralsCard) (hclock : tInvoke ≤ now) :
    (readSnapshot (writeSnapshot stored now key cards).1).dataset key =
      ⟨now, cards⟩ ∧
    tInvoke ≤
      ((readSnapshot (writeSnapshot stored now key cards).1).dataset
        key).updatedAt := by
  unfold writeSnapshot readSnapshot decodeDataset
  cases key <;> simp [SnapshotPayload.dataset] <;> exact hclock

/-- Witness for claim C8 at a concrete store, card list and times 3 ≤ 7. -/
theorem writeSnapshot_readSnapshot_roundtrip_witness :
    (3 : Int) ≤ 7 ∧
    ((readSnapshot (writeSnapshot .absent 7 .base
        [⟨['i'], ['n'], ['u'], none, none⟩]).1).dataset .base =
      ⟨7, [⟨['i'], ['n'], ['u'], none, none⟩]⟩ ∧
    (3 : Int) ≤
      ((readSnapshot (writeSnapshot .absent 7 .base
          [⟨['i'], ['n'], ['u'], none, none⟩]).1).dataset
        .base).updatedAt) :=
  ⟨by decide,
   writeSnapshot_readSnapshot_roundtrip .absent 3 7 .base
     [⟨['i'], ['n'], ['u'], none, none⟩] (by decide)⟩

/-- Claim C4: a refresh with remote fetch disallowed answers the single
error "Remote fetch disabled.", walks no source (the result does not
depend on the attempts at all) and writes nothing (the stored snapshot
is returned unchanged); the handler then serves the snapshot's current
dataset for the variant, unrefreshed. -/
theorem refreshSnapshot_remote_disabled
    (stored : StoredSnapshot) (now nowMs : Int) (key : CacheKey)
    (attempts : List (Str × FetchOutcome)) :
    refreshSnapshot stored now key false attempts =
      (⟨[], none, [("Remote fetch disabled.").data]⟩, stored) ∧
    (refreshSnapshot stored now key false attempts).1.errors.length = 1 ∧
    handlerDataset (readSnapshot stored) key
      (refreshSnapshot stored now key false attempts).1.cards nowMs =
      (readSnapshot stored).dataset key := by
  unfold refreshSnapshot handlerDataset
  simp

/-- Claim C1: a forced refresh whose source walk yields zero cards never
writes — the persisted snapshot is returned unchanged, so a previously
good entry is never clobbered by an empty list — and the handler then
serves the prior snapshot dataset for the variant together with the
accumulated fetch error list. -/
theorem refreshSnapshot_empty_fetch_preserves_snapshot
    (stored : StoredSnapshot) (now nowMs : Int) (key : CacheKey)
    (attempts : List (Str × FetchOutcome))
    (hempty : (fetchCardsFromSources attempts).cards = []) :
    (refreshSnapshot stored now key true attempts).2 = stored ∧
    (refreshSnapshot stored now key true attempts).1.errors =
      (fetchCardsFromSources attempts).errors ∧
    handlerDataset (readSnapshot stored) key
      (refreshSnapshot stored now key true attempts).1.cards nowMs =
      (readSnapshot stored).dataset key := by
  unfold refreshSnapshot handlerDataset
  simp [hempty]

/-- Witness for claim C1: a populated legacy snapshot and one failing
source; the snapshot survives and its dataset is served. -/
theorem refreshSnapshot_empty_fetch_preserves_snapshot_witness :
    (fetchCardsFromSources
        [(("u1").data, .failure (("down").data))]).cards = [] ∧
    ((refreshSnapshot (.legacy (some 5) [⟨['i'], ['n'], ['u'], none, none⟩])
        9 .base true [(("u1").data, .failure (("down").data))]).2 =
      .legacy (some 5) [⟨['i'], ['n'], ['u'], none, none⟩] ∧
    (refreshSnapshot (.legacy (some 5) [⟨['i'], ['n'], ['u'], none, none⟩])
        9 .base true [(("u1").data, .failure (("down").data))]).1.errors =
      (fetchCardsFromSources
        [(("u1").data, .failure (("down").data))]).errors ∧
    handlerDataset
      (readSnapshot (.legacy (some 5) [⟨['i'], ['n'], ['u'], none, none⟩]))
      .base
      (refreshSnapshot (.legacy (some 5) [⟨['i'], ['n'], ['u'], none, none⟩])
        9 .base true [(("u1").data, .failure (("down").data))]).1.cards 11 =
      (readSnapshot
        (.legacy (some 5) [⟨['i'], ['n'], ['u'], none, none⟩])).dataset
        .base) :=
  ⟨by decide,
   refreshSnapshot_empty_fetch_preserves_snapshot
     (.legacy (some 5) [⟨['i'], ['n'], ['u'], none, none⟩]) 9 11 .base
     [(("u1").data, .failure (("down").data))] (by decide)⟩

/-- Claim C6: when building cards from the concatenation of the
known-key arrays yields at least one card, extraction returns exactly
those cards and deep traversal is not consulted; and whenever the
known-key phase yields zero cards, extraction equals the deep
traversal's result. -/
theorem extractCards_knownKeys_win (payload : Json) :
    (collectCardsFromArray (knownArrays payload) ≠ [] →
      extractCardsFromPayload payload =
        collectCardsFromArray (knownArrays payload)) ∧
    (collectCardsFromObject payload = [] →
      extractCardsFromPayload payload = deepCollectCards payload) := by
  constructor
  · intro h
    have harr : (knownArrays payload).isEmpty = false := by
      cases he : knownArrays payload with
      | nil => exact absurd (by simp [he, collectCardsFromArray]) h
      | cons a l => simp
    have hobj : collectCardsFromObject payload =
        collectCardsFromArray (knownArrays payload) := by
      unfold collectCardsFromObject
      simp [harr]
    unfold extractCardsFromPayload
    rw [hobj, if_pos h]
  · intro h
    unfold extractCardsFromPayload
    rw [h, if_neg (by simp)]
    by_cases hd : deepCollectCards payload = []
    · simp [hd]
    · simp [hd]

/-- Witness for claim C6: a payload whose `cards` key holds one
well-formed record extracts exactly that record through the known-key
phase, and a payload with no known key falls through to deep traversal. -/
theorem extractCards_knownKeys_win_witness :
    (collectCardsFromArray (knownArrays (Json.obj [(("cards").data,
        Json.arr [Json.obj [(("name").data, Json.str (("A").data)),
          (("imageUrl").data, Json.str (("u").data))]])])) ≠ [] ∧
      extractCardsFromPayload (Json.obj [(("cards").data,
        Json.arr [Json.obj [(("name").data, Json.str (("A").data)),
          (("imageUrl").data, Json.str (("u").data))]])]) =
        collectCardsFromArray (knownArrays (Json.obj [(("cards").data,
          Json.arr [Json.obj [(("name").data, Json.str (("A").data)),
            (("imageUrl").data, Json.str (("u").data))]])]))) ∧
    (collectCardsFromObject (Json.obj [(("name").data,
        Json.str (("A").data)),
        (("imageUrl").data, Json.str (("u").data))]) = [] ∧
      extractCardsFromPayload (Json.obj [(("name").data,
        Json.str (("A").data)),
        (("imageUrl").data, Json.str (("u").data))]) =
        deepCollectCards (Json.obj [(("name").data, Json.str (("A").data)),
          (("imageUrl").data, Json.str (("u").data))])) :=
  ⟨⟨by decide,
    (extractCards_knownKeys_win (Json.obj [(("cards").data,
      Json.arr [Json.obj [(("name").data, Json.str (("A").data)),
        (("imageUrl").data, Json.str (("u").data))]])])).1 (by decide)⟩,
   ⟨by decide,
    (extractCards_knownKeys_win (Json.obj [(("name").data,
      Json.str (("A").data)),
      (("imageUrl").data, Json.str (("u").data))])).2 (by decide)⟩⟩

/-- Claim C3, amended: a source whose fetch succeeds at transport level
but whose extraction yields zero cards is skipped SILENTLY — iteration
continues with the remaining sources, but no error string is recorded
for that source: the walk beginning at such a source equals the walk of
the remaining sources with the error list unchanged. -/
theorem fetchSources_empty_payload_skipped_silently
    (url : Str) (payload : Json) (rest : List (Str × FetchOutcome))
    (errors : List Str)
    (hempty : extractCardsFromPayload payload = []) :
    fetchSourcesGo ((url, .success payload) :: rest) errors =
      fetchSourcesGo rest errors := by
  conv_lhs => rw [fetchSourcesGo]
  simp [fetchCardsFromJson, hempty]

/-- Witness for claim C3 at a concrete walk: a null payload extracts
nothing and the walk reduces to the remaining (empty) source list. -/
theorem fetchSources_empty_payload_skipped_silently_witness :
    extractCardsFromPayload Json.null = [] ∧
    fetchSourcesGo [(("u1").data, .success Json.null)] [] =
      fetchSourcesGo [] [] :=
  ⟨by decide,
   fetchSources_empty_payload_skipped_silently (("u1").data) Json.null []
     [] (by decide)⟩

/-- Counterexample to claim C3 as stated: the first source succeeds at
transport level with a payload extracting zero cards, the second yields
one card; the walk returns the second source's card with an EMPTY error
list — no error string was recorded for the first source, contradicting
"an error string for that source is recorded in the returned error
list". -/
theorem fetchSources_empty_payload_no_error_recorded :
    fetchCardsFromSources
      [(("u1").data, .success Json.null),
       (("u2").data, .success (Json.obj [(("cards").data,
          Json.arr [Json.obj [(("name").data, Json.str (("A").data)),
                              (("imageUrl").data, Json.str (("u").data))]])]))] =
      ⟨[⟨['A', '-', '0'], ['A'], ['u'], none, none⟩], some (("u2").data),
        []⟩ := by
  decide

/-- Counterexample to claim C2 as stated: `name` holds a whitespace-only
string while `cardName` holds "Valid" and an imageUrl is present.  The
claim says the whitespace alias is skipped in favour of `cardName`, so a
card named "Valid" should be built; but `??` does not skip a defined
empty string, `!name` fires, and `buildCard` returns null. -/
theorem buildCard_blank_alias_not_skipped :
    buildCard
      [(("name").data, Json.str [' ']),
       (("cardName").data, Json.str (("Valid").data)),
       (("imageUrl").data, Json.str (("http").data))] [] = none := by
  decide

/-- Claim C2, amended: each canonical field equals the stringified,
trimmed value of the first alias whose value is PRESENT (non-null) — an
alias holding an empty or whitespace-only string is NOT skipped: it
stops the chain with the empty string.  `buildCard` returns null exactly
when the name chain or the imageUrl chain resolves to nothing or to the
empty string; a built card carries the chain values, with empty
setNumber and info dropped to undefined, and its id is the id chain's
resolution when one alias is present (even an empty one), otherwise the
derived `` `${name}-${setNumber ?? fallbackId}` `` key, whose setNumber
part is the raw chain value before the `|| undefined` conversion. -/
theorem buildCard_alias_chain_semantics
    (raw : List (Str × Json)) (fallbackId : Str) :
    (buildCard raw fallbackId = none ↔
      firstAliasValue raw nameAliases = none ∨
      firstAliasValue raw nameAliases = some [] ∨
      firstAliasValue raw imageUrlAliases = none ∨
      firstAliasValue raw imageUrlAliases = some []) ∧
    (∀ card, buildCard raw fallbackId = some card →
      firstAliasValue raw nameAliases = some card.name ∧
      firstAliasValue raw imageUrlAliases = some card.imageUrl ∧
      card.name ≠ [] ∧ card.imageUrl ≠ [] ∧
      card.setNumber = emptyToNone (firstAliasValue raw setNumberAliases) ∧
      card.info = emptyToNone (firstAliasValue raw infoAliases) ∧
      card.id = (firstAliasValue raw idAliases).getD
        (card.name ++
          ('-' :: (firstAliasValue raw setNumberAliases).getD fallbackId))) := by
  cases hn : firstAliasValue raw nameAliases with
  | none => simp [buildCard, hn]
  | some name =>
    cases hu : firstAliasValue raw imageUrlAliases with
    | none => simp [buildCard, hn, hu]
    | some imageUrl =>
      by_cases hne : name = [] ∨ imageUrl = []
      · constructor
        · simp only [buildCard, hn, hu, if_pos hne, true_iff]
          rcases hne with h | h
          · exact Or.inr (Or.inl (by rw [h]))
          · exact Or.inr (Or.inr (Or.inr (by rw [h])))
        · intro card hcard
          simp only [buildCard, hn, hu, if_pos hne] at hcard
          exact absurd hcard (by simp)
      · obtain ⟨hn1, hu1⟩ := not_or.mp hne
        constructor
        · simp only [buildCard, hn, hu, if_neg hne]
          constructor
          · intro hnone
            exact absurd hnone (by simp)
          · rintro (h | h | h | h)
            · simp at h
            · exact absurd (Option.some.inj h) hn1
            · simp at h
            · exact absurd (Option.some.inj h) hu1
        · intro card hcard
          simp only [buildCard, hn, hu, if_neg hne, Option.some.injEq]
            at hcard
          subst hcard
          refine ⟨rfl, rfl, hn1, hu1, rfl, rfl, ?_⟩
          cases hid : firstAliasValue raw idAliases <;> simp [hid]

/-- Witness for claim C2: a record whose name alias trims to "A", whose
`set` alias is whitespace-only (resolved but dropped to undefined), and
an info alias absent; the built card's fields follow the chains. -/
theorem buildCard_alias_chain_semantics_witness :
    buildCard
      [(("name").data, Json.str ((" A ").data)),
       (("imageUrl").data, Json.str (("u").data)),
       (("set").data, Json.str [' '])] [] =
      some ⟨['A', '-'], ['A'], ['u'], none, none⟩ ∧
    (firstAliasValue
        [(("name").data, Json.str ((" A ").data)),
         (("imageUrl").data, Json.str (("u").data)),
         (("set").data, Json.str [' '])] nameAliases = some ['A'] ∧
      firstAliasValue
        [(("name").data, Json.str ((" A ").data)),
         (("imageUrl").data, Json.str (("u").data)),
         (("set").data, Json.str [' '])] imageUrlAliases = some ['u'] ∧
      (['A'] : Str) ≠ [] ∧ (['u'] : Str) ≠ [] ∧
      (none : Option Str) = emptyToNone (firstAliasValue
        [(("name").data, Json.str ((" A ").data)),
         (("imageUrl").data, Json.str (("u").data)),
         (("set").data, Json.str [' '])] setNumberAliases) ∧
      (none : Option Str) = emptyToNone (firstAliasValue
        [(("name").data, Json.str ((" A ").data)),
         (("imageUrl").data, Json.str (("u").data)),
         (("set").data, Json.str [' '])] infoAliases) ∧
      (['A', '-'] : Str) = (firstAliasValue
        [(("name").data, Json.str ((" A ").data)),
         (("imageUrl").data, Json.str (("u").data)),
         (("set").data, Json.str [' '])] idAliases).getD
        (['A'] ++ ('-' :: (firstAliasValue
          [(("name").data, Json.str ((" A ").data)),
           (("imageUrl").data, Json.str (("u").data)),
           (("set").data, Json.str [' '])] setNumberAliases).getD []))) :=
  ⟨by decide,
   (buildCard_alias_chain_semantics
     [(("name").data, Json.str ((" A ").data)),
      (("imageUrl").data, Json.str (("u").data)),
      (("set").data, Json.str [' '])] []).2
     ⟨['A', '-'], ['A'], ['u'], none, none⟩ (by decide)⟩

/-- Claim C9: across any sequence of GET requests to the legacy handler,
the declared cache entries `cache.base` and `cache.all` keep their
initial state — timestamp 0, empty card list — because the success path
assigns the dynamically-added `cache.cards` and `cache.timestamp`
properties of the record itself, never `cache[cacheKey]`; consequently
the TTL cache-hit guard is false at every point and the `cached: true`
branch is never taken. -/
theorem legacyCache_entries_never_populated
    (reqs : List (CacheKey × Int × Option (List ElestralsCard))) :
    (runLegacyHandler reqs).base = ⟨0, []⟩ ∧
    (runLegacyHandler reqs).all = ⟨0, []⟩ ∧
    ∀ key now, legacyCacheHit (runLegacyHandler reqs) key now = false := by
  have hstep : ∀ (c : LegacyCache) (key : CacheKey) (now : Int)
      (fetched : Option (List ElestralsCard)),
      (legacyHandlerStep c key now fetched).base = c.base ∧
      (legacyHandlerStep c key now fetched).all = c.all := by
    intro c key now fetched
    unfold legacyHandlerStep
    split
    · exact ⟨rfl, rfl⟩
    · cases fetched <;> simp
  have hrun : ∀ (rs : List (CacheKey × Int × Option (List ElestralsCard)))
      (c : LegacyCache),
      (rs.foldl (fun c r => legacyHandlerStep c r.1 r.2.1 r.2.2) c).base =
        c.base ∧
      (rs.foldl (fun c r => legacyHandlerStep c r.1 r.2.1 r.2.2) c).all =
        c.all := by
    intro rs
    induction rs with
    | nil => intro c; exact ⟨rfl, rfl⟩
    | cons r rest ih =>
      intro c
      have h1 := hstep c r.1 r.2.1 r.2.2
      have h2 := ih (legacyHandlerStep c r.1 r.2.1 r.2.2)
      exact ⟨h2.1.trans h1.1, h2.2.trans h1.2⟩
  have hbase : (runLegacyHandler reqs).base = ⟨0, []⟩ := by
    simpa [runLegacyHandler, initialLegacyCache]
      using (hrun reqs initialLegacyCache).1
  have hall : (runLegacyHandler reqs).all = ⟨0, []⟩ := by
    simpa [runLegacyHandler, initialLegacyCache]
      using (hrun reqs initialLegacyCache).2
  refine ⟨hbase, hall, ?_⟩
  intro key now
  have hentry : (runLegacyHandler reqs).entry key = ⟨0, []⟩ := by
    cases key
    · simpa [LegacyCache.entry] using hbase
    · simpa [LegacyCache.entry] using hall
  unfold legacyCacheHit
  rw [hentry]
  simp

end DyadCards
